import Mathlib

/-!
Verification of the pigweed-sense-playground event dispatch core and two
auxiliary services, against the repository's design specification.

The publish-subscribe core (`GenericPubSub`, the `Worker` task queue) is
exercised by `src/modules/pubsub/pubsub_test.cc`; the implementation header
itself (`modules/pubsub/pubsub.h`, `modules/worker`) is not in the source
tree, so the core is modelled from the specification (sections 3-5 of the
design document) and every result about it is a statement about that model.
`SystemLedForTest::Encode` and `FactoryService` are translated directly from
their sources.
-/

namespace Sense

/-! ## SystemLedForTest::Encode (modules/indicators/system_led_testing.cc) -/

/-- Translation of `SystemLedForTest::Encode`: clamp `num_intervals` to
`0x7F`, then set bit `0x80` when the LED is on, and truncate to a byte. -/
def Encode (is_on : Bool) (num_intervals : Nat) : Nat :=
  let encoded := if num_intervals > 0x7F then 0x7F else num_intervals
  let encoded := encoded ||| (if is_on then 0x80 else 0x00)
  encoded % 256

/-! ## FactoryService (apps/factory/service.cc) -/

/-- The nanopb `factory.Test.Type` enum as seen by the service: the three
declared values plus any unrecognized wire value (nanopb stores the raw
integer, and the `switch` in the service has no `default` branch). -/
inductive TestType
  | BUTTONS
  | LTR559_PROX
  | LTR559_LIGHT
  | UNRECOGNIZED (raw : Int)
deriving DecidableEq

/-- The observable state of the components `FactoryService` drives. -/
structure FactoryComponents where
  buttonManagerStarted : Bool
  proximityEnabled : Bool
  ambientLightEnabled : Bool
deriving DecidableEq

/-- Result statuses returned by the factory service methods. -/
inductive PwStatus
  | ok
  | unknown
deriving DecidableEq

/-- Translation of `FactoryService::StartTest`: switch on `request.test`,
start/enable the matching component, and return `pw::OkStatus()`; an
unrecognized test type matches no case and falls through to the return. -/
def StartTest (test : TestType) (c : FactoryComponents) :
    PwStatus × FactoryComponents :=
  match test with
  | .BUTTONS => (.ok, { c with buttonManagerStarted := true })
  | .LTR559_PROX => (.ok, { c with proximityEnabled := true })
  | .LTR559_LIGHT => (.ok, { c with ambientLightEnabled := true })
  | .UNRECOGNIZED _ => (.ok, c)

/-- Translation of `FactoryService::EndTest`: switch on `request.test`,
stop/disable the matching component, and return `pw::OkStatus()`; an
unrecognized test type matches no case and falls through to the return. -/
def EndTest (test : TestType) (c : FactoryComponents) :
    PwStatus × FactoryComponents :=
  match test with
  | .BUTTONS => (.ok, { c with buttonManagerStarted := false })
  | .LTR559_PROX => (.ok, { c with proximityEnabled := false })
  | .LTR559_LIGHT => (.ok, { c with ambientLightEnabled := false })
  | .UNRECOGNIZED _ => (.ok, c)

end Sense

namespace Sense

/-! ## The event dispatch core, modelled from the specification

Modelled from the spec: the repository ships only the test
(`modules/pubsub/pubsub_test.cc`) and callers of `GenericPubSub` and the
`Worker`; the implementation (`modules/pubsub/pubsub.h`, `modules/worker`)
is absent from the source tree. The definitions below follow the design
document: a single-consumer bounded FIFO task queue (`Worker`,
`PushWork`), a fixed-capacity FIFO Event Queue, a Subscriber Table of
optional callback slots with occupancy-generation tokens, and the
publish/dispatch policy of section 4.3 (publish fails fast when the Event
Queue is full; a successful publish that took the queue from empty to
non-empty enqueues one dispatch task; each dispatch task delivers the
oldest event to every occupied slot in slot order and re-enqueues itself
while events remain). Subscriber callbacks are modelled as state
transformers `ε → σ → σ` over an abstract accumulator, and the system
additionally records a delivery log of (slot index, event) pairs so that
invocation order is observable. -/

/-- Modelled from the spec: a task submitted to the Worker. A `dispatch`
task drains one event from the PubSub instance under study; a `blocker`
task is any other deferred work (opaque to the core; in the backpressure
test it is the long-running task that stalls the queue). -/
inductive Task
  | dispatch
  | blocker (id : Nat)
deriving DecidableEq

/-- Modelled from the spec: the Worker's state - a FIFO of pending tasks
bounded by a fixed capacity `C_w`. -/
structure Worker where
  queue : List Task
  capacity : Nat
deriving DecidableEq

/-- Modelled from the spec: `Worker::PushWork` - enqueue the task if the
queue has free capacity and return success, otherwise return failure and
leave the task un-enqueued. -/
def PushWork (w : Worker) (t : Task) : Bool × Worker :=
  if w.queue.length < w.capacity then
    (true, { w with queue := w.queue ++ [t] })
  else
    (false, w)

/-- Modelled from the spec: one Subscriber Slot - empty or holding a
callback, together with an occupancy generation that distinguishes reuse
of the slot index. -/
structure Slot (ε σ : Type) where
  generation : Nat
  occupant : Option (ε → σ → σ)

/-- Modelled from the spec: a Token returned by `Subscribe`, identifying
the slot and the occupancy instance it was issued for. -/
structure Token where
  index : Nat
  generation : Nat
deriving DecidableEq

/-- Modelled from the spec: the state of one `GenericPubSub` instance
bound to its Worker: the Event Queue (FIFO, capacity `eventCapacity`), the
Subscriber Table, the shared accumulator the callbacks act on, and a log
of callback invocations (slot index, event) in invocation order. -/
structure System (ε σ : Type) where
  worker : Worker
  eventQueue : List ε
  eventCapacity : Nat
  slots : List (Slot ε σ)
  acc : σ
  log : List (Nat × ε)

/-- Modelled from the spec: deliver event `e` to every occupied slot in
ascending slot order, threading the accumulator; returns the new
accumulator and the invocation records in order. `i` is the index of the
first slot in the list. -/
def invokeFrom {ε σ : Type} :
    List (Slot ε σ) → Nat → ε → σ → σ × List (Nat × ε)
  | [], _, _, a => (a, [])
  | s :: rest, i, e, a =>
    match s.occupant with
    | none => invokeFrom rest (i + 1) e a
    | some f =>
      let r := invokeFrom rest (i + 1) e (f e a)
      (r.1, (i, e) :: r.2)

/-- Modelled from the spec: the body of one dispatch task - pop the oldest
event (if none, return); invoke every occupied slot's callback with it in
slot order; if the Event Queue is still non-empty, re-enqueue another
dispatch task on the Worker. -/
def dispatchOnce {ε σ : Type} (sys : System ε σ) : System ε σ :=
  match sys.eventQueue with
  | [] => sys
  | e :: rest =>
    let r := invokeFrom sys.slots 0 e sys.acc
    let sys1 : System ε σ :=
      { sys with eventQueue := rest, acc := r.1, log := sys.log ++ r.2 }
    if rest.isEmpty then sys1
    else { sys1 with worker := (PushWork sys1.worker .dispatch).2 }

/-- Modelled from the spec: execute one task on the Worker thread. A
`blocker` task's work is opaque to the core and leaves the modelled state
unchanged once it finishes. -/
def execTask {ε σ : Type} (t : Task) (sys : System ε σ) : System ε σ :=
  match t with
  | .dispatch => dispatchOnce sys
  | .blocker _ => sys

/-- Modelled from the spec: one iteration of the Worker's `run` loop -
dequeue the oldest task and execute it to completion. -/
def workerStep {ε σ : Type} (sys : System ε σ) : System ε σ :=
  match sys.worker.queue with
  | [] => sys
  | t :: rest => execTask t { sys with worker := { sys.worker with queue := rest } }

/-- Modelled from the spec: run the Worker until its task queue is empty
or `fuel` iterations have happened (the loop itself blocks on an empty
queue; `fuel` bounds the execution we examine). -/
def runWorker {ε σ : Type} : Nat → System ε σ → System ε σ
  | 0, sys => sys
  | fuel + 1, sys =>
    match sys.worker.queue with
    | [] => sys
    | _ => runWorker fuel (workerStep sys)

/-- Modelled from the spec: `GenericPubSub::Publish` - if the Event Queue
is full, return failure with nothing changed; otherwise append the event,
and when this publish took the queue from empty to non-empty, push one
dispatch task to the Worker (publish still succeeds even if the Worker's
queue is full: the event is safely buffered). -/
def Publish {ε σ : Type} (sys : System ε σ) (e : ε) : Bool × System ε σ :=
  if sys.eventCapacity ≤ sys.eventQueue.length then
    (false, sys)
  else
    let wasEmpty := sys.eventQueue.isEmpty
    let sys1 : System ε σ := { sys with eventQueue := sys.eventQueue ++ [e] }
    if wasEmpty then
      (true, { sys1 with worker := (PushWork sys1.worker .dispatch).2 })
    else
      (true, sys1)

/-- Modelled from the spec: fold a sequence of `Publish` calls, keeping the
final state. -/
def publishSeq {ε σ : Type} (sys : System ε σ) : List ε → System ε σ
  | [] => sys
  | e :: es => publishSeq (Publish sys e).2 es

/-- Modelled from the spec: find the first empty slot, store the callback
there with a fresh occupancy generation, and return the token and updated
table; `none` when every slot is occupied. `i` is the index of the first
slot in the list. -/
def subscribeAux {ε σ : Type} :
    List (Slot ε σ) → (ε → σ → σ) → Nat → Option (Token × List (Slot ε σ))
  | [], _, _ => none
  | s :: rest, f, i =>
    match s.occupant with
    | none =>
      some (⟨i, s.generation + 1⟩, ⟨s.generation + 1, some f⟩ :: rest)
    | some _ =>
      (subscribeAux rest f (i + 1)).map fun r => (r.1, s :: r.2)

/-- Modelled from the spec: `GenericPubSub::Subscribe` - store the callback
in the first empty slot and return a token for it, or return nothing and
store nothing when the table is full. -/
def Subscribe {ε σ : Type} (sys : System ε σ) (f : ε → σ → σ) :
    Option Token × System ε σ :=
  match subscribeAux sys.slots f 0 with
  | none => (none, sys)
  | some r => (some r.1, { sys with slots := r.2 })

/-- Modelled from the spec: vacate the slot at position `i` when it is
occupied and its generation matches `g`; `none` otherwise (stale or
unknown token). -/
def unsubscribeAux {ε σ : Type} :
    List (Slot ε σ) → Nat → Nat → Option (List (Slot ε σ))
  | [], _, _ => none
  | s :: rest, 0, g =>
    match s.occupant with
    | some _ => if s.generation = g then some (⟨s.generation, none⟩ :: rest) else none
    | none => none
  | s :: rest, i + 1, g =>
    (unsubscribeAux rest i g).map fun r => s :: r

/-- Modelled from the spec: `GenericPubSub::Unsubscribe` - when the token
identifies a currently occupied slot with matching occupancy generation,
vacate it and return success; otherwise return failure without side
effects. -/
def Unsubscribe {ε σ : Type} (sys : System ε σ) (t : Token) :
    Bool × System ε σ :=
  match unsubscribeAux sys.slots t.index t.generation with
  | none => (false, sys)
  | some slots1 => (true, { sys with slots := slots1 })

/-- Modelled from the spec: `subscriber_count` - the number of occupied
slots. -/
def subscriberCount {ε σ : Type} (sys : System ε σ) : Nat :=
  sys.slots.countP fun s => s.occupant.isSome

/-- Modelled from the spec: `max_subscribers` - the fixed size of the
Subscriber Table. -/
def maxSubscribers {ε σ : Type} (sys : System ε σ) : Nat :=
  sys.slots.length

/-- The event type of the pubsub unit tests (`TestEvent`). -/
structure TestEvent where
  value : Int
deriving DecidableEq

/-- Claim C9: for every `is_on` and `num_intervals`, `Encode` returns a byte
whose low 7 bits equal `min num_intervals 0x7F` (saturating at 127) and whose
`0x80` bit is set exactly when `is_on` is true. -/
theorem encode_byte_layout (is_on : Bool) (num_intervals : Nat) :
    Encode is_on num_intervals % 128 = min num_intervals 127 ∧
    (Encode is_on num_intervals &&& 128 = 128 ↔ is_on = true) := by
  have hclamp : (if num_intervals > 0x7F then 0x7F else num_intervals) =
      min num_intervals 127 := by
    rcases Nat.lt_or_ge 0x7F num_intervals with h | h
    · simp [h, Nat.min_eq_right (Nat.le_of_lt h)]
    · simp [Nat.not_lt.mpr h, Nat.min_eq_left h]
  have hmin : min num_intervals 127 < 128 :=
    Nat.lt_of_le_of_lt (Nat.min_le_right _ _) (by decide)
  have key : ∀ x, x < 128 →
      (x ||| 128) % 256 % 128 = x ∧ (x ||| 128) % 256 &&& 128 = 128 ∧
      (x ||| 0) % 256 % 128 = x ∧ (x ||| 0) % 256 &&& 128 = 0 := by decide
  obtain ⟨h1, h2, h3, h4⟩ := key (min num_intervals 127) hmin
  cases is_on with
  | false =>
    refine ⟨?_, ?_⟩
    · simpa [Encode, hclamp] using h3
    · simp only [Encode, hclamp]
      simp only [Nat.or_zero] at h4
      simp [h4]
  | true =>
    refine ⟨?_, ?_⟩
    · simpa [Encode, hclamp] using h1
    · simp only [Encode, hclamp]
      simp [h2]

/-- Claim C10: `StartTest` and `EndTest` return `pw::OkStatus()` for every
request, and for an unrecognized test type neither method starts, stops,
enables or disables any component. -/
theorem factory_start_end_test_total_ok :
    (∀ (t : TestType) (c : FactoryComponents),
      (StartTest t c).1 = PwStatus.ok ∧ (EndTest t c).1 = PwStatus.ok) ∧
    (∀ (raw : Int) (c : FactoryComponents),
      StartTest (.UNRECOGNIZED raw) c = (PwStatus.ok, c) ∧
      EndTest (.UNRECOGNIZED raw) c = (PwStatus.ok, c)) := by
  constructor
  · intro t c
    cases t <;> exact ⟨rfl, rfl⟩
  · intro raw c
    exact ⟨rfl, rfl⟩

/-- `PushWork` succeeding appends the task; failing leaves the Worker
untouched. -/
theorem pushWork_cases (w : Worker) (t : Task) :
    (w.queue.length < w.capacity →
      PushWork w t = (true, { w with queue := w.queue ++ [t] })) ∧
    (w.capacity ≤ w.queue.length → PushWork w t = (false, w)) := by
  constructor
  · intro h
    simp [PushWork, h]
  · intro h
    simp [PushWork, Nat.not_lt.mpr h]

/-- Claim C8: `push_work` either enqueues the task (free capacity) and
returns true, or returns false leaving the task un-enqueued and the queue
unchanged; a submitted task is never silently dropped. -/
theorem push_work_enqueues_or_rejects_synchronously (w : Worker) (t : Task) :
    (w.queue.length < w.capacity →
      PushWork w t = (true, { w with queue := w.queue ++ [t] })) ∧
    (¬ w.queue.length < w.capacity → PushWork w t = (false, w)) := by
  refine ⟨(pushWork_cases w t).1, fun h => (pushWork_cases w t).2 (Nat.not_lt.mp h)⟩

/-- Witness for C8 at a Worker of capacity 2: pushing onto a queue of
length 1 succeeds, pushing onto a queue of length 2 is rejected
unchanged. -/
theorem push_work_enqueues_or_rejects_synchronously_witness :
    PushWork ⟨[Task.blocker 0], 2⟩ Task.dispatch =
      (true, ⟨[Task.blocker 0, Task.dispatch], 2⟩) ∧
    PushWork ⟨[Task.blocker 0, Task.blocker 1], 2⟩ Task.dispatch =
      (false, ⟨[Task.blocker 0, Task.blocker 1], 2⟩) :=
  ⟨(push_work_enqueues_or_rejects_synchronously ⟨[Task.blocker 0], 2⟩ Task.dispatch).1
      (by decide),
   (push_work_enqueues_or_rejects_synchronously
      ⟨[Task.blocker 0, Task.blocker 1], 2⟩ Task.dispatch).2 (by decide)⟩

/-- A publish against a full Event Queue is a pure no-op returning
failure. -/
theorem publish_full {ε σ : Type} (sys : System ε σ) (e : ε)
    (h : sys.eventCapacity ≤ sys.eventQueue.length) :
    Publish sys e = (false, sys) := by
  simp [Publish, h]

/-- `Publish` never changes the Event Queue capacity. -/
theorem publish_eventCapacity {ε σ : Type} (sys : System ε σ) (e : ε) :
    (Publish sys e).2.eventCapacity = sys.eventCapacity := by
  unfold Publish
  split
  · rfl
  · dsimp only
    split <;> rfl

/-- A single `Publish` preserves the bound `length ≤ capacity` on the Event
Queue. -/
theorem publish_length_le {ε σ : Type} (sys : System ε σ) (e : ε)
    (h : sys.eventQueue.length ≤ sys.eventCapacity) :
    (Publish sys e).2.eventQueue.length ≤ sys.eventCapacity := by
  unfold Publish
  split
  · exact h
  · rename_i hfull
    rw [Nat.not_le] at hfull
    dsimp only
    split <;> simp <;> omega

/-- Fold a sequence of `Publish` calls: the conjunction of all returned
results, and the final state. -/
def publishAll {ε σ : Type} (sys : System ε σ) : List ε → Bool × System ε σ
  | [] => (true, sys)
  | e :: es =>
    let r := Publish sys e
    let r2 := publishAll r.2 es
    (r.1 && r2.1, r2.2)

/-- `publishAll` never changes the Event Queue capacity. -/
theorem publishAll_eventCapacity {ε σ : Type} :
    ∀ (es : List ε) (sys : System ε σ),
      (publishAll sys es).2.eventCapacity = sys.eventCapacity
  | [], _ => rfl
  | e :: es, sys => by
    unfold publishAll
    dsimp only
    rw [publishAll_eventCapacity es, publish_eventCapacity]

/-- The Event Queue bound `length ≤ capacity` is preserved by any sequence
of `Publish` calls. -/
theorem publishAll_length_le {ε σ : Type} :
    ∀ (es : List ε) (sys : System ε σ),
      sys.eventQueue.length ≤ sys.eventCapacity →
      (publishAll sys es).2.eventQueue.length ≤ sys.eventCapacity
  | [], _, h => h
  | e :: es, sys, h => by
    unfold publishAll
    dsimp only
    have h1 := publish_length_le sys e h
    have h2 := publish_eventCapacity sys e
    have := publishAll_length_le es (Publish sys e).2 (h2 ▸ h1)
    omega

/-- Claim C1: over any sequence of publishes the Event Queue length never
exceeds its capacity, and a publish against a queue already holding
`C_e` events returns false and changes nothing - the event is dropped
whole, no dispatch task is enqueued for it. -/
theorem event_queue_capacity_invariant {ε σ : Type} (sys : System ε σ)
    (hinv : sys.eventQueue.length ≤ sys.eventCapacity) :
    (∀ es : List ε, (publishAll sys es).2.eventQueue.length ≤ sys.eventCapacity) ∧
    (sys.eventQueue.length = sys.eventCapacity →
      ∀ e : ε, Publish sys e = (false, sys)) := by
  constructor
  · intro es
    exact publishAll_length_le es sys hinv
  · intro hfull e
    exact publish_full sys e (Nat.le_of_eq hfull.symm)

/-- Witness for C1 at a concrete instance: a queue of capacity 1 holding
one event keeps length ≤ 1 under three further publishes, and a further
publish is rejected with the whole state unchanged. -/
theorem event_queue_capacity_invariant_witness :
    (publishAll (⟨⟨[], 4⟩, [0], 1, [], (), []⟩ : System Nat Unit)
        [1, 2, 3]).2.eventQueue.length ≤ 1 ∧
    Publish (⟨⟨[], 4⟩, [0], 1, [], (), []⟩ : System Nat Unit) 7 =
      (false, ⟨⟨[], 4⟩, [0], 1, [], (), []⟩) := by
  have h := event_queue_capacity_invariant
    (⟨⟨[], 4⟩, [0], 1, [], (), []⟩ : System Nat Unit) (by decide)
  exact ⟨h.1 [1, 2, 3], h.2 rfl 7⟩

/-- When every slot is occupied, `subscribeAux` finds no empty slot. -/
theorem subscribeAux_of_full {ε σ : Type} :
    ∀ (slots : List (Slot ε σ)) (f : ε → σ → σ) (i : Nat),
      (∀ s ∈ slots, s.occupant.isSome = true) →
      subscribeAux slots f i = none
  | [], _, _, _ => rfl
  | s :: rest, f, i, h => by
    unfold subscribeAux
    have hs := h s (List.mem_cons_self s rest)
    match hocc : s.occupant with
    | none => rw [hocc] at hs; simp at hs
    | some g =>
      dsimp only
      rw [subscribeAux_of_full rest f (i + 1)
        (fun x hx => h x (List.mem_cons_of_mem s hx))]
      rfl

/-- When some slot is empty, `subscribeAux` stores the callback: the
returned table has one more occupied slot and the same length. -/
theorem subscribeAux_of_not_full {ε σ : Type} :
    ∀ (slots : List (Slot ε σ)) (f : ε → σ → σ) (i : Nat),
      slots.countP (fun s => s.occupant.isSome) < slots.length →
      ∃ t slots1, subscribeAux slots f i = some (t, slots1) ∧
        slots1.countP (fun s => s.occupant.isSome) =
          slots.countP (fun s => s.occupant.isSome) + 1 ∧
        slots1.length = slots.length
  | [], _, _, h => absurd h (by simp)
  | s :: rest, f, i, h => by
    unfold subscribeAux
    match hocc : s.occupant with
    | none =>
      refine ⟨⟨i, s.generation + 1⟩, ⟨s.generation + 1, some f⟩ :: rest, rfl, ?_, rfl⟩
      simp [List.countP_cons, hocc]
    | some g =>
      have hcount : rest.countP (fun x => x.occupant.isSome) < rest.length := by
        rw [List.countP_cons] at h
        simp only [hocc, Option.isSome_some, if_pos] at h
        simpa using Nat.lt_of_add_lt_add_right h
      obtain ⟨t, rest1, heq, hc, hl⟩ := subscribeAux_of_not_full rest f (i + 1) hcount
      refine ⟨t, s :: rest1, ?_, ?_, by simp [hl]⟩
      · dsimp only
        rw [heq]
        rfl
      · simp [List.countP_cons, hocc, hc]

/-- A subscribe against a full table returns nothing and stores nothing. -/
theorem subscribe_full {ε σ : Type} (sys : System ε σ) (f : ε → σ → σ)
    (h : subscriberCount sys = maxSubscribers sys) :
    Subscribe sys f = (none, sys) := by
  unfold Subscribe
  rw [subscribeAux_of_full sys.slots f 0 (List.countP_eq_length.mp h)]

/-- A subscribe against a table with a free slot succeeds and raises the
subscriber count by exactly one. -/
theorem subscribe_not_full {ε σ : Type} (sys : System ε σ) (f : ε → σ → σ)
    (h : subscriberCount sys < maxSubscribers sys) :
    (Subscribe sys f).1.isSome = true ∧
    subscriberCount (Subscribe sys f).2 = subscriberCount sys + 1 ∧
    maxSubscribers (Subscribe sys f).2 = maxSubscribers sys := by
  obtain ⟨t, slots1, heq, hc, hl⟩ := subscribeAux_of_not_full sys.slots f 0 h
  unfold Subscribe
  rw [heq]
  exact ⟨rfl, hc, hl⟩

/-- Fold a sequence of `Subscribe` calls: the conjunction of "every call
returned a token", and the final state. -/
def subscribeAll {ε σ : Type} (sys : System ε σ) :
    List (ε → σ → σ) → Bool × System ε σ
  | [] => (true, sys)
  | f :: fs =>
    let r := Subscribe sys f
    let r2 := subscribeAll r.2 fs
    (r.1.isSome && r2.1, r2.2)

/-- As long as the table has room for all of them, a sequence of
subscribes all succeed and raise the subscriber count by the length of the
sequence, preserving the table size. -/
theorem subscribeAll_fills {ε σ : Type} :
    ∀ (fs : List (ε → σ → σ)) (sys : System ε σ),
      subscriberCount sys + fs.length ≤ maxSubscribers sys →
      (subscribeAll sys fs).1 = true ∧
      subscriberCount (subscribeAll sys fs).2 = subscriberCount sys + fs.length ∧
      maxSubscribers (subscribeAll sys fs).2 = maxSubscribers sys
  | [], sys, _ => ⟨rfl, by simp [subscribeAll], rfl⟩
  | f :: fs, sys, h => by
    have hlt : subscriberCount sys < maxSubscribers sys := by
      simp only [List.length_cons] at h
      omega
    obtain ⟨h1, h2, h3⟩ := subscribe_not_full sys f hlt
    have hrec := subscribeAll_fills fs (Subscribe sys f).2 (by rw [h2, h3]; simp at h ⊢; omega)
    unfold subscribeAll
    dsimp only
    refine ⟨by rw [h1, hrec.1]; rfl, ?_, by rw [hrec.2.2, h3]⟩
    rw [hrec.2.1, h2]
    simp
    omega

/-- Claim C4: a subscribe on a table with a free slot succeeds and raises
`subscriber_count` by exactly one; after the table is full (in particular
after `N` successful subscribes fill a table of size `N`, at which point
`subscriber_count = N = max_subscribers`), a further subscribe returns no
token and stores and evicts nothing. -/
theorem subscribe_at_most_N {ε σ : Type} (sys : System ε σ) (f : ε → σ → σ) :
    (subscriberCount sys < maxSubscribers sys →
      (Subscribe sys f).1.isSome = true ∧
      subscriberCount (Subscribe sys f).2 = subscriberCount sys + 1) ∧
    (subscriberCount sys = maxSubscribers sys → Subscribe sys f = (none, sys)) ∧
    (∀ fs : List (ε → σ → σ),
      subscriberCount sys + fs.length ≤ maxSubscribers sys →
      (subscribeAll sys fs).1 = true ∧
      subscriberCount (subscribeAll sys fs).2 = subscriberCount sys + fs.length ∧
      maxSubscribers (subscribeAll sys fs).2 = maxSubscribers sys) := by
  refine ⟨fun h => ?_, subscribe_full sys f, fun fs h => subscribeAll_fills fs sys h⟩
  obtain ⟨h1, h2, _⟩ := subscribe_not_full sys f h
  exact ⟨h1, h2⟩

/-- Witness for C4 on a fresh table of size 4: four subscribes all succeed
reaching `subscriber_count = 4 = max_subscribers`, a single subscribe from
the fresh state succeeds with count 1, and a fifth subscribe against the
filled table is rejected unchanged. -/
theorem subscribe_at_most_N_witness :
    ((Subscribe (⟨⟨[], 4⟩, [], 4, List.replicate 4 ⟨0, none⟩, (0 : Int), []⟩ :
        System TestEvent Int) fun _ a => a).1.isSome = true ∧
      subscriberCount (Subscribe (⟨⟨[], 4⟩, [], 4, List.replicate 4 ⟨0, none⟩,
        (0 : Int), []⟩ : System TestEvent Int) fun _ a => a).2 = 0 + 1) ∧
    ((subscribeAll (⟨⟨[], 4⟩, [], 4, List.replicate 4 ⟨0, none⟩, (0 : Int), []⟩ :
        System TestEvent Int)
        [fun _ a => a, fun _ a => a, fun _ a => a, fun _ a => a]).1 = true ∧
      subscriberCount (subscribeAll (⟨⟨[], 4⟩, [], 4,
        List.replicate 4 ⟨0, none⟩, (0 : Int), []⟩ : System TestEvent Int)
        [fun _ a => a, fun _ a => a, fun _ a => a, fun _ a => a]).2 = 0 + 4 ∧
      maxSubscribers (subscribeAll (⟨⟨[], 4⟩, [], 4,
        List.replicate 4 ⟨0, none⟩, (0 : Int), []⟩ : System TestEvent Int)
        [fun _ a => a, fun _ a => a, fun _ a => a, fun _ a => a]).2 = 4) := by
  have h := subscribe_at_most_N
    (⟨⟨[], 4⟩, [], 4, List.replicate 4 ⟨0, none⟩, (0 : Int), []⟩ :
      System TestEvent Int) (fun _ a => a)
  refine ⟨h.1 (by decide), ?_⟩
  have h4 := h.2.2 [fun _ a => a, fun _ a => a, fun _ a => a, fun _ a => a]
    (by decide)
  exact h4

/-- Characterization of `unsubscribeAux`: it vacates slot `i` exactly when
that slot exists, is occupied, and carries generation `g`; otherwise it
reports failure. -/
theorem unsubscribeAux_eq {ε σ : Type} :
    ∀ (slots : List (Slot ε σ)) (i g : Nat),
      unsubscribeAux slots i g =
        match slots.get? i with
        | some s =>
          if s.occupant.isSome = true ∧ s.generation = g then
            some (slots.set i ⟨g, none⟩)
          else none
        | none => none
  | [], i, g => by cases i <;> rfl
  | s :: rest, 0, g => by
    unfold unsubscribeAux
    match hocc : s.occupant with
    | some f =>
      simp only [List.get?_cons_zero, hocc, Option.isSome_some, true_and, List.set]
      by_cases hg : s.generation = g
      · rw [if_pos hg, if_pos hg, hg]
      · rw [if_neg hg, if_neg hg]
    | none =>
      simp [List.get?_cons_zero, hocc]
  | s :: rest, i + 1, g => by
    unfold unsubscribeAux
    rw [unsubscribeAux_eq rest i g]
    simp only [List.get?_cons_succ]
    cases hi : rest.get? i with
    | none => rfl
    | some x =>
      dsimp only
      by_cases hx : x.occupant.isSome = true ∧ x.generation = g
      · rw [if_pos hx, if_pos hx]
        rfl
      · rw [if_neg hx, if_neg hx]
        rfl

/-- Vacating an occupied slot lowers the occupied-slot count by exactly
one. -/
theorem countP_set_vacate {ε σ : Type} :
    ∀ (slots : List (Slot ε σ)) (i : Nat) (s : Slot ε σ) (g : Nat),
      slots.get? i = some s → s.occupant.isSome = true →
      (slots.set i ⟨g, none⟩).countP (fun x => x.occupant.isSome) + 1 =
        slots.countP (fun x => x.occupant.isSome)
  | [], i, s, g, h, _ => by cases i <;> simp at h
  | x :: rest, 0, s, g, h, hocc => by
    simp only [List.get?_cons_zero, Option.some_inj] at h
    subst h
    simp [List.set, List.countP_cons, hocc]
  | x :: rest, i + 1, s, g, h, hocc => by
    simp only [List.get?_cons_succ] at h
    have := countP_set_vacate rest i s g h hocc
    simp [List.set, List.countP_cons]
    omega

/-- A successful unsubscribe: with a live token the slot is vacated (other
slots untouched) and the call returns success. -/
theorem unsubscribe_valid {ε σ : Type} (sys : System ε σ) (t : Token)
    (s : Slot ε σ) (hget : sys.slots.get? t.index = some s)
    (hocc : s.occupant.isSome = true) (hgen : s.generation = t.generation) :
    Unsubscribe sys t =
      (true, { sys with slots := sys.slots.set t.index ⟨t.generation, none⟩ }) := by
  unfold Unsubscribe
  rw [unsubscribeAux_eq, hget]
  simp only [hocc, hgen, and_self, if_true]

/-- A failed unsubscribe: when the token's slot is missing, vacant, or
carries a different occupancy generation, the call returns failure with no
side effects. -/
theorem unsubscribe_invalid {ε σ : Type} (sys : System ε σ) (t : Token)
    (h : ∀ s : Slot ε σ, sys.slots.get? t.index = some s →
      s.occupant = none ∨ s.generation ≠ t.generation) :
    Unsubscribe sys t = (false, sys) := by
  unfold Unsubscribe
  rw [unsubscribeAux_eq]
  cases hget : sys.slots.get? t.index with
  | none => rfl
  | some s =>
    dsimp only
    rcases h s hget with hnone | hgen
    · rw [if_neg]
      rintro ⟨h1, _⟩
      rw [hnone] at h1
      simp at h1
    · rw [if_neg]
      rintro ⟨_, h2⟩
      exact hgen h2

/-- A fresh two-slot PubSub instance for the token reuse scenario. -/
def tokenScenario0 : System TestEvent Int :=
  ⟨⟨[], 4⟩, [], 4, [⟨0, none⟩, ⟨0, none⟩], 0, []⟩

/-- First subscription of the token reuse scenario (slot 0). -/
def tokenScenario1 : Option Token × System TestEvent Int :=
  Subscribe tokenScenario0 fun e a => a + e.value

/-- Second subscription of the token reuse scenario (slot 1). -/
def tokenScenario2 : Option Token × System TestEvent Int :=
  Subscribe tokenScenario1.2 fun e a => a * e.value

/-- Unsubscribing the first token vacates slot 0. -/
def tokenScenario3 : Bool × System TestEvent Int :=
  Unsubscribe tokenScenario2.2 ⟨0, 1⟩

/-- A later subscription re-occupies slot 0 with a fresh generation. -/
def tokenScenario4 : Option Token × System TestEvent Int :=
  Subscribe tokenScenario3.2 fun e a => a - e.value

/-- Claim C5: unsubscribing with a token whose slot is occupied by the
same occupancy instance vacates exactly that slot, returns true and lowers
`subscriber_count` by one; a stale token (slot vacated, or vacated and
re-occupied under a later generation) or unknown token is rejected with no
side effects - demonstrated end to end on the reuse scenario, where the
original token for slot 0 no longer matches after the slot is vacated and
re-subscribed. -/
theorem unsubscribe_token_hygiene {ε σ : Type} (sys : System ε σ) (t : Token) :
    (∀ s : Slot ε σ, sys.slots.get? t.index = some s →
        s.occupant.isSome = true → s.generation = t.generation →
      Unsubscribe sys t =
        (true, { sys with slots := sys.slots.set t.index ⟨t.generation, none⟩ }) ∧
      subscriberCount (Unsubscribe sys t).2 + 1 = subscriberCount sys) ∧
    ((∀ s : Slot ε σ, sys.slots.get? t.index = some s →
        s.occupant = none ∨ s.generation ≠ t.generation) →
      Unsubscribe sys t = (false, sys)) ∧
    (tokenScenario1.1 = some ⟨0, 1⟩ ∧ tokenScenario2.1 = some ⟨1, 1⟩ ∧
      tokenScenario3.1 = true ∧ subscriberCount tokenScenario3.2 = 1 ∧
      tokenScenario4.1 = some ⟨0, 2⟩ ∧ subscriberCount tokenScenario4.2 = 2 ∧
      Unsubscribe tokenScenario4.2 ⟨0, 1⟩ = (false, tokenScenario4.2)) := by
  refine ⟨fun s hget hocc hgen => ?_, unsubscribe_invalid sys t,
    rfl, rfl, rfl, rfl, rfl, rfl, rfl⟩
  have heq := unsubscribe_valid sys t s hget hocc hgen
  refine ⟨heq, ?_⟩
  rw [heq]
  exact countP_set_vacate sys.slots t.index s t.generation hget hocc

/-- Witness for C5: on a one-slot table holding generation 1, token (0,1)
unsubscribes successfully leaving the slot vacant, and on a one-slot table
holding generation 2 the stale token (0,1) is rejected with the state
unchanged. -/
theorem unsubscribe_token_hygiene_witness :
    (Unsubscribe (⟨⟨[], 4⟩, [], 4, [⟨1, some fun (_ : TestEvent) (a : Int) => a⟩],
        0, []⟩ : System TestEvent Int) ⟨0, 1⟩ =
      (true, ⟨⟨[], 4⟩, [], 4, [⟨1, none⟩], 0, []⟩) ∧
      subscriberCount (Unsubscribe (⟨⟨[], 4⟩, [], 4,
        [⟨1, some fun (_ : TestEvent) (a : Int) => a⟩], 0, []⟩ :
        System TestEvent Int) ⟨0, 1⟩).2 + 1 = 1) ∧
    Unsubscribe (⟨⟨[], 4⟩, [], 4, [⟨2, some fun (_ : TestEvent) (a : Int) => a⟩],
        0, []⟩ : System TestEvent Int) ⟨0, 1⟩ =
      (false, ⟨⟨[], 4⟩, [], 4, [⟨2, some fun (_ : TestEvent) (a : Int) => a⟩],
        0, []⟩) := by
  constructor
  · exact (unsubscribe_token_hygiene (⟨⟨[], 4⟩, [], 4,
      [⟨1, some fun (_ : TestEvent) (a : Int) => a⟩], 0, []⟩ :
      System TestEvent Int) ⟨0, 1⟩).1 ⟨1, some fun _ a => a⟩ rfl rfl rfl
  · refine (unsubscribe_token_hygiene (⟨⟨[], 4⟩, [], 4,
      [⟨2, some fun (_ : TestEvent) (a : Int) => a⟩], 0, []⟩ :
      System TestEvent Int) ⟨0, 1⟩).2.1 ?_
    intro s hs
    injection hs with h
    subst h
    right
    decide

/-- Claim C7: no capacity failure is fatal - a publish against a full
Event Queue, a subscribe against a full table, an unsubscribe with an
invalid token, and a push onto a full Worker queue each report failure to
the caller through their return value and leave the state completely
unchanged. -/
theorem capacity_failures_are_result_values {ε σ : Type} (sys : System ε σ)
    (e : ε) (f : ε → σ → σ) (t : Token) (w : Worker) (task : Task) :
    (sys.eventCapacity ≤ sys.eventQueue.length → Publish sys e = (false, sys)) ∧
    (subscriberCount sys = maxSubscribers sys → Subscribe sys f = (none, sys)) ∧
    ((∀ s : Slot ε σ, sys.slots.get? t.index = some s →
        s.occupant = none ∨ s.generation ≠ t.generation) →
      Unsubscribe sys t = (false, sys)) ∧
    (w.capacity ≤ w.queue.length → PushWork w task = (false, w)) :=
  ⟨publish_full sys e, subscribe_full sys f, unsubscribe_invalid sys t,
    (pushWork_cases w task).2⟩

/-- Witness for C7 at a saturated concrete instance: capacity-1 queue
holding one event, a fully occupied one-slot table, an out-of-range token,
and a capacity-0 Worker. -/
theorem capacity_failures_are_result_values_witness :
    Publish (⟨⟨[], 0⟩, [⟨7⟩], 1, [⟨1, some fun (_ : TestEvent) (a : Int) => a⟩],
        0, []⟩ : System TestEvent Int) ⟨9⟩ =
      (false, ⟨⟨[], 0⟩, [⟨7⟩], 1, [⟨1, some fun _ a => a⟩], 0, []⟩) ∧
    Subscribe (⟨⟨[], 0⟩, [⟨7⟩], 1, [⟨1, some fun (_ : TestEvent) (a : Int) => a⟩],
        0, []⟩ : System TestEvent Int) (fun _ a => a) =
      (none, ⟨⟨[], 0⟩, [⟨7⟩], 1, [⟨1, some fun _ a => a⟩], 0, []⟩) ∧
    Unsubscribe (⟨⟨[], 0⟩, [⟨7⟩], 1, [⟨1, some fun (_ : TestEvent) (a : Int) => a⟩],
        0, []⟩ : System TestEvent Int) ⟨3, 1⟩ =
      (false, ⟨⟨[], 0⟩, [⟨7⟩], 1, [⟨1, some fun _ a => a⟩], 0, []⟩) ∧
    PushWork ⟨[], 0⟩ Task.dispatch = (false, ⟨[], 0⟩) := by
  have h := capacity_failures_are_result_values
    (⟨⟨[], 0⟩, [⟨7⟩], 1, [⟨1, some fun (_ : TestEvent) (a : Int) => a⟩], 0, []⟩ :
      System TestEvent Int) ⟨9⟩ (fun _ a => a) ⟨3, 1⟩ ⟨[], 0⟩ Task.dispatch
  refine ⟨h.1 (by decide), h.2.1 rfl, h.2.2.1 ?_, h.2.2.2 (by decide)⟩
  intro s hs
  simp at hs

/-- Scenario D start state: Event Queue capacity 4, Worker queue capacity
8, four empty subscriber slots, accumulator (sum, invocation count). -/
def scenarioD0 : System TestEvent (Int × Nat) :=
  ⟨⟨[], 8⟩, [], 4, List.replicate 4 ⟨0, none⟩, (0, 0), []⟩

/-- Scenario D: a long-running task is pushed first, blocking the Worker
until it runs. -/
def scenarioD1 : System TestEvent (Int × Nat) :=
  { scenarioD0 with worker := (PushWork scenarioD0.worker (.blocker 0)).2 }

/-- Scenario D: a single subscriber summing values and counting
invocations. -/
def scenarioD2 : System TestEvent (Int × Nat) :=
  (Subscribe scenarioD1 fun e a => (a.1 + e.value, a.2 + 1)).2

/-- Scenario D: the five publish attempts against the blocked Worker. -/
def scenarioDp1 : Bool × System TestEvent (Int × Nat) := Publish scenarioD2 ⟨10⟩

/-- Scenario D: second publish. -/
def scenarioDp2 : Bool × System TestEvent (Int × Nat) := Publish scenarioDp1.2 ⟨11⟩

/-- Scenario D: third publish. -/
def scenarioDp3 : Bool × System TestEvent (Int × Nat) := Publish scenarioDp2.2 ⟨12⟩

/-- Scenario D: fourth publish. -/
def scenarioDp4 : Bool × System TestEvent (Int × Nat) := Publish scenarioDp3.2 ⟨13⟩

/-- Scenario D: fifth publish, against the now-full Event Queue. -/
def scenarioDp5 : Bool × System TestEvent (Int × Nat) := Publish scenarioDp4.2 ⟨14⟩

/-- Scenario D: the Worker is unblocked and runs to idle. -/
def scenarioDfinal : System TestEvent (Int × Nat) := runWorker 8 scenarioDp5.2

/-- Claim C2: with Event Queue capacity 4 and the Worker blocked,
publishing 10, 11, 12, 13 succeeds, publishing 14 fails; once the Worker
is unblocked the single subscriber is invoked exactly 4 times with the
buffered events (sum 46), and the fifth event is never delivered. -/
theorem backpressure_scenario :
    scenarioDp1.1 = true ∧ scenarioDp2.1 = true ∧ scenarioDp3.1 = true ∧
    scenarioDp4.1 = true ∧ scenarioDp5.1 = false ∧
    scenarioDfinal.acc = (46, 4) ∧
    scenarioDfinal.log = [(0, ⟨10⟩), (0, ⟨11⟩), (0, ⟨12⟩), (0, ⟨13⟩)] ∧
    scenarioDfinal.eventQueue = [] :=
  ⟨rfl, rfl, rfl, rfl, rfl, rfl, rfl, rfl⟩

/-- Scenario B start state: four empty subscriber slots, a shared integer
accumulator. -/
def scenarioB0 : System TestEvent Int :=
  ⟨⟨[], 8⟩, [], 4, List.replicate 4 ⟨0, none⟩, 0, []⟩

/-- Scenario B: four subscribers, each adding the event's value to the
shared accumulator. -/
def scenarioB1 : System TestEvent Int :=
  (subscribeAll scenarioB0 [fun e a => a + e.value, fun e a => a + e.value,
    fun e a => a + e.value, fun e a => a + e.value]).2

/-- Scenario B: publish a single event of value 4. -/
def scenarioBp : Bool × System TestEvent Int := Publish scenarioB1 ⟨4⟩

/-- Scenario B: the Worker drains the queue. -/
def scenarioBfinal : System TestEvent Int := runWorker 4 scenarioBp.2

/-- Claim C6: with 4 subscribers each adding the event's value to a shared
accumulator, one successful publish of value 4 invokes every subscriber
exactly once with that event, leaving the accumulator at 16. -/
theorem four_subscribers_accumulate_sixteen :
    scenarioBp.1 = true ∧
    scenarioBfinal.acc = 16 ∧
    scenarioBfinal.log = [(0, ⟨4⟩), (1, ⟨4⟩), (2, ⟨4⟩), (3, ⟨4⟩)] ∧
    scenarioBfinal.eventQueue = [] :=
  ⟨rfl, rfl, rfl, rfl⟩

/-- The indices of the occupied slots, in ascending slot order, starting
from index `i`. -/
def occupiedFrom {ε σ : Type} : List (Slot ε σ) → Nat → List Nat
  | [], _ => []
  | s :: rest, i =>
    match s.occupant with
    | none => occupiedFrom rest (i + 1)
    | some _ => i :: occupiedFrom rest (i + 1)

/-- Every index reported by `occupiedFrom slots i` is at least `i`. -/
theorem occupiedFrom_ge {ε σ : Type} :
    ∀ (slots : List (Slot ε σ)) (i j : Nat), j ∈ occupiedFrom slots i → i ≤ j
  | [], _, _, h => absurd h (List.not_mem_nil _)
  | s :: rest, i, j, h => by
    unfold occupiedFrom at h
    match hocc : s.occupant with
    | none =>
      rw [hocc] at h
      exact Nat.le_of_succ_le (occupiedFrom_ge rest (i + 1) j h)
    | some f =>
      rw [hocc] at h
      rcases List.mem_cons.mp h with rfl | h
      · exact Nat.le_refl j
      · exact Nat.le_of_succ_le (occupiedFrom_ge rest (i + 1) j h)

/-- The occupied-slot index list has no duplicates. -/
theorem occupiedFrom_nodup {ε σ : Type} :
    ∀ (slots : List (Slot ε σ)) (i : Nat), (occupiedFrom slots i).Nodup
  | [], _ => List.nodup_nil
  | s :: rest, i => by
    unfold occupiedFrom
    match hocc : s.occupant with
    | none => exact occupiedFrom_nodup rest (i + 1)
    | some f =>
      dsimp only
      rw [List.nodup_cons]
      refine ⟨fun hmem => ?_, occupiedFrom_nodup rest (i + 1)⟩
      have := occupiedFrom_ge rest (i + 1) i hmem
      omega

/-- One delivery invokes exactly the occupied slots, in slot order. -/
theorem invokeFrom_log {ε σ : Type} :
    ∀ (slots : List (Slot ε σ)) (i : Nat) (e : ε) (a : σ),
      (invokeFrom slots i e a).2 = (occupiedFrom slots i).map fun j => (j, e)
  | [], _, _, _ => rfl
  | s :: rest, i, e, a => by
    unfold invokeFrom occupiedFrom
    match hocc : s.occupant with
    | none => exact invokeFrom_log rest (i + 1) e a
    | some f =>
      dsimp only
      rw [invokeFrom_log rest (i + 1) e (f e a)]
      rfl

/-- Deliver a list of events, in order, to every occupied slot: the
resulting accumulator and the combined invocation log. -/
def deliverList {ε σ : Type} (slots : List (Slot ε σ)) :
    List ε → σ → σ × List (Nat × ε)
  | [], a => (a, [])
  | e :: es, a =>
    let r := invokeFrom slots 0 e a
    let r2 := deliverList slots es r.1
    (r2.1, r.2 ++ r2.2)

/-- The delivery log of a list of events: each event - in publish order -
is delivered once to every occupied slot, in slot order. -/
theorem deliverList_log {ε σ : Type} (slots : List (Slot ε σ)) :
    ∀ (es : List ε) (a : σ),
      (deliverList slots es a).2 =
        es.flatMap fun e => (occupiedFrom slots 0).map fun j => (j, e)
  | [], _ => rfl
  | e :: es, a => by
    unfold deliverList
    dsimp only
    rw [invokeFrom_log, deliverList_log slots es]
    rfl

/-- The drain loop: a Worker holding exactly one dispatch task for a
non-empty Event Queue runs the queue dry in one dispatch execution per
event, delivering every event to the occupied slots in FIFO order. -/
theorem drain_loop {ε σ : Type} :
    ∀ (es : List ε) (e : ε) (sys : System ε σ),
      sys.worker.queue = [Task.dispatch] →
      1 ≤ sys.worker.capacity →
      sys.eventQueue = e :: es →
      runWorker (e :: es).length sys =
        { sys with
          worker := { sys.worker with queue := [] },
          eventQueue := [],
          acc := (deliverList sys.slots (e :: es) sys.acc).1,
          log := sys.log ++ (deliverList sys.slots (e :: es) sys.acc).2 }
  | [], e, sys, hq, hcap, hev => by
    show runWorker 1 sys = _
    unfold runWorker
    rw [hq]
    dsimp only
    unfold workerStep
    rw [hq]
    dsimp only [execTask]
    unfold dispatchOnce
    dsimp only
    rw [hev]
    dsimp only [deliverList]
    simp [runWorker]
  | e2 :: es, e, sys, hq, hcap, hev => by
    show runWorker ((e2 :: es).length + 1) sys = _
    unfold runWorker
    rw [hq]
    dsimp only
    unfold workerStep
    rw [hq]
    dsimp only [execTask]
    unfold dispatchOnce
    dsimp only
    rw [hev]
    dsimp only
    rw [if_neg (by simp)]
    dsimp only [PushWork]
    rw [if_pos (show List.length ([] : List Task) < sys.worker.capacity from
      by simpa using hcap)]
    dsimp only
    simp only [List.nil_append]
    rw [drain_loop es e2 _ rfl (by simpa using hcap) rfl]
    dsimp only
    rw [show deliverList sys.slots (e :: e2 :: es) sys.acc =
      ((deliverList sys.slots (e2 :: es) (invokeFrom sys.slots 0 e sys.acc).1).1,
       (invokeFrom sys.slots 0 e sys.acc).2 ++
         (deliverList sys.slots (e2 :: es)
           (invokeFrom sys.slots 0 e sys.acc).1).2) from rfl]
    dsimp only
    rw [List.append_assoc]

/-- A sequence of publishes against an already non-empty Event Queue with
enough remaining room all succeed, appending the events in order; no new
dispatch task is pushed since the queue never transitions from empty. -/
theorem publishAll_nonempty {ε σ : Type} :
    ∀ (es : List ε) (sys : System ε σ),
      sys.eventQueue ≠ [] →
      sys.eventQueue.length + es.length ≤ sys.eventCapacity →
      publishAll sys es = (true, { sys with eventQueue := sys.eventQueue ++ es })
  | [], sys, _, _ => by
    unfold publishAll
    rw [List.append_nil]
  | e :: es, sys, hne, h => by
    have hlt : sys.eventQueue.length < sys.eventCapacity := by
      simp only [List.length_cons] at h
      omega
    have hlen2 : (sys.eventQueue ++ [e]).length + es.length ≤
        sys.eventCapacity := by
      simp only [List.length_append, List.length_cons, List.length_nil] at h ⊢
      omega
    unfold publishAll
    dsimp only
    unfold Publish
    rw [if_neg (Nat.not_le.mpr hlt)]
    dsimp only
    rw [if_neg (by simpa using hne)]
    dsimp only
    rw [publishAll_nonempty es _ (by simp) hlen2]
    dsimp only
    rw [List.append_assoc]
    rfl

/-- Publishing `e :: es` into a fresh PubSub instance (empty Event Queue,
idle Worker with positive capacity) succeeds for every event and leaves
exactly one dispatch task on the Worker. -/
theorem publishAll_fresh {ε σ : Type} (cw cap : Nat) (slots : List (Slot ε σ))
    (a : σ) (e : ε) (es : List ε) (hcw : 1 ≤ cw)
    (hlen : (e :: es).length ≤ cap) :
    publishAll (⟨⟨[], cw⟩, [], cap, slots, a, []⟩ : System ε σ) (e :: es) =
      (true, ⟨⟨[Task.dispatch], cw⟩, e :: es, cap, slots, a, []⟩) := by
  have hcap : 0 < cap := by
    simp only [List.length_cons] at hlen
    omega
  have h1 : Publish (⟨⟨[], cw⟩, [], cap, slots, a, []⟩ : System ε σ) e =
      (true, ⟨⟨[Task.dispatch], cw⟩, [e], cap, slots, a, []⟩) := by
    unfold Publish
    rw [if_neg (show ¬ cap ≤ List.length ([] : List ε) from by
      simp only [List.length_nil]; omega)]
    dsimp only [PushWork]
    rw [if_pos (show List.length ([] : List Task) < cw from by
      simp only [List.length_nil]; omega)]
    rfl
  have h2 : publishAll (⟨⟨[Task.dispatch], cw⟩, [e], cap, slots, a, []⟩ :
      System ε σ) es = (true, ⟨⟨[Task.dispatch], cw⟩, e :: es, cap, slots, a,
      []⟩) := by
    have := publishAll_nonempty es
      (⟨⟨[Task.dispatch], cw⟩, [e], cap, slots, a, []⟩ : System ε σ)
      (by simp) (by simp only [List.length_cons, List.length_nil] at hlen ⊢; omega)
    simpa using this
  unfold publishAll
  dsimp only
  rw [h1]
  dsimp only
  rw [h2]
  rfl

/-- Filtering the per-event invocation records down to one slot index
commutes with building them from the index list. -/
theorem filter_pair_map {ε : Type} (e : ε) (j : Nat) :
    ∀ occ : List Nat,
      ((occ.map fun i => (i, e)).filter fun p => p.1 == j) =
        (occ.filter fun i => i == j).map fun i => (i, e)
  | [] => rfl
  | i :: occ => by
    by_cases hij : (i == j) = true
    · rw [List.map_cons, List.filter_cons, List.filter_cons, if_pos hij,
        if_pos hij, List.map_cons, filter_pair_map e j occ]
    · rw [List.map_cons, List.filter_cons, List.filter_cons, if_neg hij,
        if_neg hij, filter_pair_map e j occ]

/-- In a duplicate-free index list, filtering for one index yields that
index exactly once if present. -/
theorem nodup_filter_beq (j : Nat) :
    ∀ occ : List Nat, occ.Nodup →
      occ.filter (fun i => i == j) = if j ∈ occ then [j] else []
  | [], _ => by simp
  | i :: occ, h => by
    rw [List.nodup_cons] at h
    obtain ⟨hnotin, hnd⟩ := h
    rw [List.filter_cons]
    by_cases hij : (i == j) = true
    · have hij2 : i = j := by simpa using hij
      subst hij2
      rw [if_pos hij, nodup_filter_beq i occ hnd, if_neg hnotin,
        if_pos (List.mem_cons_self i occ)]
    · have hij2 : ¬ i = j := by simpa using hij
      rw [if_neg hij, nodup_filter_beq j occ hnd]
      by_cases hmem : j ∈ occ
      · rw [if_pos hmem, if_pos (List.mem_cons_of_mem i hmem)]
      · rw [if_neg hmem, if_neg ?_]
        intro hc
        rcases List.mem_cons.mp hc with rfl | hc2
        · exact hij2 rfl
        · exact hmem hc2

/-- Projecting the full delivery log onto one subscriber: an occupied slot
sees exactly the published events in publish order; any other index sees
nothing. -/
theorem log_filter {ε : Type} (occ : List Nat) (hocc : occ.Nodup) (j : Nat) :
    ∀ es : List ε,
      (((es.flatMap fun e => occ.map fun i => (i, e)).filter
          fun p => p.1 == j).map Prod.snd) =
        if j ∈ occ then es else []
  | [] => by simp
  | e :: es => by
    rw [List.flatMap_cons, List.filter_append, List.map_append,
      filter_pair_map e j occ, nodup_filter_beq j occ hocc,
      log_filter occ hocc j es]
    by_cases hmem : j ∈ occ
    · rw [if_pos hmem, if_pos hmem, if_pos hmem]
      rfl
    · rw [if_neg hmem, if_neg hmem, if_neg hmem]
      rfl

/-- Scenario C start state: Event Queue capacity 4, four empty slots,
accumulator (sum, invocation count). -/
def scenarioC0 : System TestEvent (Int × Nat) :=
  ⟨⟨[], 8⟩, [], 4, List.replicate 4 ⟨0, none⟩, (0, 0), []⟩

/-- Scenario C: one subscriber summing values and counting invocations. -/
def scenarioC1 : System TestEvent (Int × Nat) :=
  (Subscribe scenarioC0 fun e a => (a.1 + e.value, a.2 + 1)).2

/-- Scenario C: first batch of publishes, values 1 to 4. -/
def scenarioCbatch1 : Bool × System TestEvent (Int × Nat) :=
  publishAll scenarioC1 [⟨1⟩, ⟨2⟩, ⟨3⟩, ⟨4⟩]

/-- Scenario C: the Worker drains the first batch. -/
def scenarioCrun1 : System TestEvent (Int × Nat) :=
  runWorker 4 scenarioCbatch1.2

/-- Scenario C: second batch of publishes, values 5 to 8. -/
def scenarioCbatch2 : Bool × System TestEvent (Int × Nat) :=
  publishAll scenarioCrun1 [⟨5⟩, ⟨6⟩, ⟨7⟩, ⟨8⟩]

/-- Scenario C: the Worker drains the second batch. -/
def scenarioCrun2 : System TestEvent (Int × Nat) :=
  runWorker 4 scenarioCbatch2.2

/-- Claim C3: a single producer's successfully published events
`e :: es` (at most the queue capacity, all publishes returning true) are
delivered to every occupied subscriber slot in exactly that order, each
event once per subscriber, and an unoccupied index observes nothing; in
particular one subscriber receiving 1,2,3,4 then 5,6,7,8 reaches
count 4 / sum 10 after the first batch and count 8 / sum 36 after the
second, with the full invocation log in publish order. -/
theorem delivery_order_per_subscriber :
    (∀ (ε σ : Type) (cw cap : Nat) (slots : List (Slot ε σ)) (a : σ)
        (e : ε) (es : List ε), 1 ≤ cw → (e :: es).length ≤ cap →
      (publishAll (⟨⟨[], cw⟩, [], cap, slots, a, []⟩ : System ε σ)
          (e :: es)).1 = true ∧
      ∀ j : Nat,
        (((runWorker (e :: es).length
            (publishAll (⟨⟨[], cw⟩, [], cap, slots, a, []⟩ : System ε σ)
              (e :: es)).2).log.filter fun p => p.1 == j).map Prod.snd) =
          if j ∈ occupiedFrom slots 0 then e :: es else []) ∧
    (scenarioCbatch1.1 = true ∧ scenarioCrun1.acc = (10, 4) ∧
      scenarioCbatch2.1 = true ∧ scenarioCrun2.acc = (36, 8) ∧
      scenarioCrun2.log = [(0, ⟨1⟩), (0, ⟨2⟩), (0, ⟨3⟩), (0, ⟨4⟩),
        (0, ⟨5⟩), (0, ⟨6⟩), (0, ⟨7⟩), (0, ⟨8⟩)]) := by
  constructor
  · intro ε σ cw cap slots a e es hcw hlen
    rw [publishAll_fresh cw cap slots a e es hcw hlen]
    refine ⟨rfl, fun j => ?_⟩
    dsimp only
    rw [drain_loop es e _ rfl hcw rfl]
    dsimp only
    rw [List.nil_append, deliverList_log,
      log_filter (occupiedFrom slots 0) (occupiedFrom_nodup slots 0) j (e :: es)]
  · exact ⟨rfl, rfl, rfl, rfl, rfl⟩

/-- Witness for C3 on a one-subscriber instance: publishing 5 then 6 into
a fresh system succeeds and slot 0's view of the delivery log is exactly
[5, 6]. -/
theorem delivery_order_per_subscriber_witness :
    (publishAll (⟨⟨[], 1⟩, [], 2, [⟨1, some fun (_ : Nat) (a : Unit) => a⟩],
        (), []⟩ : System Nat Unit) [5, 6]).1 = true ∧
    (((runWorker 2 (publishAll (⟨⟨[], 1⟩, [], 2,
        [⟨1, some fun (_ : Nat) (a : Unit) => a⟩], (), []⟩ : System Nat Unit)
        [5, 6]).2).log.filter fun p => p.1 == 0).map Prod.snd) = [5, 6] := by
  have h := delivery_order_per_subscriber.1 Nat Unit 1 2
    [⟨1, some fun _ a => a⟩] () 5 [6] (by decide) (by decide)
  refine ⟨h.1, ?_⟩
  have h2 := h.2 0
  rw [if_pos (by decide)] at h2
  exact h2

end Sense
